/-
Verification of the k8s load-test CI pipeline scripts.

Shallow embedding of the algorithmic core of the repository's Python
scripts (`scripts/load_test.py`, `scripts/check_health.py`,
`scripts/monitor_resources.py`, `scripts/utils.py`) into Lean 4.

Conventions used throughout:
  * Python floats are modelled as rationals (`ℚ`).
  * Python dicts with string keys are modelled as association lists
    `List (String × _)`; `dict[k]` lookups that can raise `KeyError`
    are modelled with `Option` (with `none` standing for the raised
    exception).
  * Python exceptions escaping a function are modelled with `Option` /
    sum-like results.
  * The network is modelled as an explicit environment: a function
    giving, for each attempt, the response (HTTP status, body) or a
    transport error.
-/
import Mathlib

namespace LoadTestCI

/-! ## Python primitives -/

/-- Python's `int(x)` applied to a float: truncation toward zero. -/
def pyInt (q : ℚ) : ℤ := if q < 0 then ⌈q⌉ else ⌊q⌋

/-- Python's `round(x, ndigits)` idealised on rationals: round half to even
(banker's rounding) at `ndigits` decimal places. -/
def roundHalfEven (x : ℚ) : ℤ :=
  if x - ⌊x⌋ < 1/2 then ⌊x⌋
  else if 1/2 < x - ⌊x⌋ then ⌊x⌋ + 1
  else if ⌊x⌋ % 2 = 0 then ⌊x⌋ else ⌊x⌋ + 1

/-- `round(x, n)` from Python, on rationals. -/
def pyRound (x : ℚ) (ndigits : ℕ) : ℚ :=
  (roundHalfEven (x * 10 ^ ndigits) : ℚ) / 10 ^ ndigits

/-! ## `scripts/load_test.py`: `percentile` -/

/-- `percentile(latencies, pct)` from `scripts/load_test.py`:

    if not latencies: return 0.0
    ordered = sorted(latencies)
    k = (len(ordered) - 1) * pct
    f = int(k)
    c = min(f + 1, len(ordered) - 1)
    if f == c: return ordered[f]
    return ordered[f] * (c - k) + ordered[c] * (k - f)
-/
def percentile (latencies : List ℚ) (pct : ℚ) : ℚ :=
  if latencies = [] then 0
  else
    let ordered := List.insertionSort (fun a b => a ≤ b) latencies
    let k : ℚ := ((ordered.length : ℚ) - 1) * pct
    let f : ℤ := pyInt k
    let c : ℤ := min (f + 1) ((ordered.length : ℤ) - 1)
    if f = c then ordered.getD f.toNat 0
    else ordered.getD f.toNat 0 * ((c : ℚ) - k) + ordered.getD c.toNat 0 * (k - (f : ℚ))

/-- Modelled from the spec: the linearly-interpolated order statistic as the
spec words it (sort ascending, `k = (n-1)*p`, `f = floor(k)`,
`c = min(f+1, n-1)`, `samples[f]` if `f = c`, otherwise
`samples[f]*(c-k) + samples[c]*(k-f)`; empty input yields 0).  It differs
from the code's `percentile` only in using mathematical `floor` where the
code uses Python `int` truncation. -/
def percentileSpec (samples : List ℚ) (p : ℚ) : ℚ :=
  if samples = [] then 0
  else
    let ordered := List.insertionSort (fun a b => a ≤ b) samples
    let k : ℚ := ((ordered.length : ℚ) - 1) * p
    let f : ℤ := ⌊k⌋
    let c : ℤ := min (f + 1) ((ordered.length : ℤ) - 1)
    if f = c then ordered.getD f.toNat 0
    else ordered.getD f.toNat 0 * ((c : ℚ) - k) + ordered.getD c.toNat 0 * (k - (f : ℚ))

/-! ## Python `min`/`max`/`mean` over non-empty float lists -/

/-- Python `min(xs)` for the non-empty lists it is applied to (callers guard
against emptiness; the 0 default is never reached there). -/
def listMin : List ℚ → ℚ
  | [] => 0
  | x :: xs => xs.foldl min x

/-- Python `max(xs)`, same convention as `listMin`. -/
def listMax : List ℚ → ℚ
  | [] => 0
  | x :: xs => xs.foldl max x

/-! ## `scripts/load_test.py`: `compute_metrics` -/

/-- A Python `Dict[str, float]`. -/
abbrev Metrics := List (String × ℚ)

/-- `compute_metrics(latencies, successes, attempts, duration, failures)`
from `scripts/load_test.py`.  Note the zero-attempt branch returns a dict
without the `"requests"` and `"failures"` keys. -/
def compute_metrics (latencies : List ℚ) (successes : ℕ) (attempts : ℕ)
    (duration : ℚ) (failures : ℕ) : Metrics :=
  if attempts = 0 then
    [("rps", 0), ("success_rate", 0), ("avg", 0), ("p50", 0), ("p90", 0),
     ("p95", 0), ("p99", 0), ("max", 0)]
  else
    [("rps", if duration ≠ 0 then (attempts : ℚ) / duration else 0),
     ("success_rate", (successes : ℚ) / (attempts : ℚ)),
     ("avg", if latencies ≠ [] then latencies.sum / (latencies.length : ℚ) else 0),
     ("p50", percentile latencies (50/100)),
     ("p90", percentile latencies (90/100)),
     ("p95", percentile latencies (95/100)),
     ("p99", percentile latencies (99/100)),
     ("max", if latencies ≠ [] then listMax latencies else 0),
     ("requests", (attempts : ℚ)),
     ("failures", (failures : ℚ))]

/-! ## Python dicts: item assignment and `dict.update` -/

/-- Python `d[k] = v` on an association-list dict: replace the binding in
place when the key is present, append otherwise. -/
def dictSet {α : Type} : List (String × α) → String → α → List (String × α)
  | [], k, v => [(k, v)]
  | (k0, v0) :: rest, k, v =>
    if k0 = k then (k, v) :: rest else (k0, v0) :: dictSet rest k v

/-- Python `d.update(u)`: set each binding of `u` in order. -/
def dictUpdate {α : Type} (d : List (String × α)) (u : List (String × α)) :
    List (String × α) :=
  u.foldl (fun acc kv => dictSet acc kv.1 kv.2) d

/-! ## `scripts/utils.py`: persisted pipeline state -/

/-- `load_state()` from `scripts/utils.py`: the state file is modelled as
`none` (absent) or `some d` (present, holding the JSON object `d`, which
round-trips verbatim through `json.dumps`/`json.loads`).  An absent file
yields the empty dict. -/
def load_state {α : Type} (file : Option (List (String × α))) :
    List (String × α) :=
  file.getD []

/-- `save_state(state)` from `scripts/utils.py`: writes the whole dict. -/
def save_state {α : Type} (state : List (String × α)) :
    Option (List (String × α)) :=
  some state

/-- `update_state(updates)` from `scripts/utils.py`:
`state = load_state(); state.update(updates); save_state(state)`. -/
def update_state {α : Type} (file : Option (List (String × α)))
    (updates : List (String × α)) : Option (List (String × α)) :=
  save_state (dictUpdate (load_state file) updates)

/-! ## `scripts/load_test.py`: `summarise` -/

/-- The two load-tested hosts (`HOSTS` in `scripts/load_test.py`). -/
def HOSTS : List String := ["foo.localhost", "bar.localhost"]

/-- Rendering of one float into the report.  The fixed-decimal formatting of
the Python `format` spec is abstracted as `toString`; only the dict accesses
(which can raise `KeyError`, modelled as `none`) are load-bearing here. -/
def fmtQ (q : ℚ) : String := toString q

/-- The body of `summarise`'s per-host loop: read `results[host]` and the
eight metric fields the row template interpolates.  A missing key is a
`KeyError`, i.e. `none`. -/
def hostLine (results : List (String × Metrics)) (host : String) :
    Option String := do
  let metrics ← results.lookup host
  let req ← metrics.lookup "requests"
  let success ← metrics.lookup "success_rate"
  let avg ← metrics.lookup "avg"
  let p90 ← metrics.lookup "p90"
  let p95 ← metrics.lookup "p95"
  let p99 ← metrics.lookup "p99"
  let rps ← metrics.lookup "rps"
  let fail ← metrics.lookup "failures"
  pure ("| " ++ host ++ " | " ++ fmtQ req ++ " | " ++ fmtQ (success * 100)
    ++ "% | " ++ fmtQ (avg * 1000) ++ " | " ++ fmtQ (p90 * 1000) ++ " | "
    ++ fmtQ (p95 * 1000) ++ " | " ++ fmtQ (p99 * 1000) ++ " | " ++ fmtQ rps
    ++ " | " ++ fmtQ fail ++ " |")

/-- `summarise(results)` from `scripts/load_test.py`: the header, one row per
host in `HOSTS`, and the combined-totals line. -/
def summarise (results : List (String × Metrics)) : Option String := do
  let rowFoo ← hostLine results "foo.localhost"
  let rowBar ← hostLine results "bar.localhost"
  let combined ← results.lookup "combined"
  let dur ← combined.lookup "duration"
  let total ← combined.lookup "total_requests"
  let fail ← combined.lookup "failures"
  pure (String.intercalate "\n"
    ["### 🚦 Load-test summary",
     "| Host | Requests | Success % | Avg (ms) | P90 (ms) | P95 (ms) | P99 (ms) | Req/s | Failures |",
     "| --- | ---: | ---: | ---: | ---: | ---: | ---: | ---: | ---: |",
     rowFoo, rowBar,
     "\nTotal duration: " ++ fmtQ dur ++ "s for " ++ fmtQ total
       ++ " requests (failures: " ++ fmtQ fail ++ ")."])

/-- A per-host results mapping exactly as a 1-request `run_load` run builds
it when the single request went to `bar.localhost`: `foo.localhost` carries
the zero-attempt group from `compute_metrics`. -/
def resultsZeroAttempt : List (String × Metrics) :=
  [("foo.localhost", compute_metrics [] 0 0 1 0),
   ("bar.localhost", compute_metrics [1] 1 1 1 0),
   ("combined", dictUpdate (compute_metrics [1] 1 1 1 0)
      [("duration", 1), ("total_requests", 1)])]

/-! ## `scripts/load_test.py`: `run_load` (steady state) -/

/-- What the network returns for one issued request: a response carrying an
HTTP status code and a body, or a transport error
(`requests.RequestException`).  Either way the elapsed latency is known. -/
inductive ReqResult where
  | ok (status : ℕ) (body : List Char) (latency : ℚ)
  | exn (latency : ℚ)

/-- One steady-state iteration as `run_load` experiences it: the host index
`random.choice(HOSTS)` picked, and what the request to it returned. -/
structure Event where
  host : Fin 2
  result : ReqResult

/-- `HOSTS[i]`. -/
def hostName (i : Fin 2) : String :=
  if i = 0 then "foo.localhost" else "bar.localhost"

/-- `expected = host.split(".")[0]` from the loop body of `run_load`. -/
def expectedOf (i : Fin 2) : List Char :=
  (((hostName i).splitOn ".").headD "").toList

/-- Python `needle in hay` on strings: substring containment. -/
def isSubstr (needle hay : List Char) : Bool :=
  hay.tails.any needle.isPrefixOf

/-- One per-host entry of `run_load`'s `stats` dict. -/
structure HostStats where
  latencies : List ℚ
  successes : ℕ
  failures : ℕ
  attempts : ℕ

/-- `stats` as initialised by the dict comprehension at the top of
`run_load`. -/
def initStats : Fin 2 → HostStats := fun _ => ⟨[], 0, 0, 0⟩

/-- The loop body of `run_load`: bump the chosen host's attempt count,
record the elapsed latency, and classify the outcome — on a response,
success iff `response.status_code == 200 and expected in response.text`;
on a transport error, a failure with the elapsed time still recorded. -/
def step (stats : Fin 2 → HostStats) (e : Event) : Fin 2 → HostStats :=
  fun h =>
    if h = e.host then
      match e.result with
      | .ok status body lat =>
        { latencies := (stats h).latencies ++ [lat]
          successes :=
            if status == 200 && isSubstr (expectedOf e.host) body then
              (stats h).successes + 1
            else (stats h).successes
          failures :=
            if status == 200 && isSubstr (expectedOf e.host) body then
              (stats h).failures
            else (stats h).failures + 1
          attempts := (stats h).attempts + 1 }
      | .exn lat =>
        { latencies := (stats h).latencies ++ [lat]
          successes := (stats h).successes
          failures := (stats h).failures + 1
          attempts := (stats h).attempts + 1 }
    else stats h

/-- The steady-state loop of `run_load`, driven by the per-request events of
one run with `total_requests = events.length`. -/
def run_load (events : List Event) : Fin 2 → HostStats :=
  events.foldl step initStats

/-- Success of one request: HTTP 200 and the body contains the target's
expected substring. -/
def isSuccess (e : Event) : Bool :=
  match e.result with
  | .ok status body _ => status == 200 && isSubstr (expectedOf e.host) body
  | .exn _ => false

/-- The requests of a run attributed to host `h`. -/
def countHost (events : List Event) (h : Fin 2) : ℕ :=
  (events.filter (fun e => e.host == h)).length

/-- The successful requests of a run attributed to host `h`. -/
def countSuccess (events : List Event) (h : Fin 2) : ℕ :=
  (events.filter (fun e => e.host == h && isSuccess e)).length

/-! ## `scripts/load_test.py`: `warmup` and `main` -/

/-- The attempt loop of `warmup(session, host, attempts, delay, timeout)`.
The environment `responses` gives, for each 1-based attempt number,
`some status` when the GET returned a response and `none` when it raised
`requests.RequestException`.  Result: `some i` when `warmup` returns
normally on attempt `i` (the first HTTP 200), `none` when the budget is
exhausted and it raises `RuntimeError`. -/
def warmupFrom (responses : ℕ → Option ℕ) : ℕ → ℕ → Option ℕ
  | _, 0 => none
  | attempt, remaining + 1 =>
    if responses attempt = some 200 then some attempt
    else warmupFrom responses (attempt + 1) remaining

/-- `warmup` with `attempts` as its attempt budget: attempts are numbered
`1..attempts` as in `range(1, attempts + 1)`. -/
def warmup (attempts : ℕ) (responses : ℕ → Option ℕ) : Option ℕ :=
  warmupFrom responses 1 attempts

/-- `main()` of `scripts/load_test.py` around the load run: warm up each
host of `HOSTS` in order — an exhausted warmup raises `RuntimeError`, which
propagates out of `main` — then run the steady-state loop.  The second
component records the steady-state requests actually issued. -/
def mainModel (wattempts : ℕ) (resp : Fin 2 → ℕ → Option ℕ)
    (events : List Event) : Option (Fin 2 → HostStats) × List Event :=
  match warmup wattempts (resp 0) with
  | none => (none, [])
  | some _ =>
    match warmup wattempts (resp 1) with
    | none => (none, [])
    | some _ => (some (run_load events), events)

/-! ## `scripts/check_health.py`: the phased readiness gate -/

/-- Which of the five health-check phases of `main()` in
`scripts/check_health.py` abort the gate when their checks fail.  Phases
are indexed 0-4 (displayed as "Phase 1" to "Phase 5").  Index 1
("Phase 2 - Admission Webhooks", `wait_for_admission_webhooks`) catches
every exception internally and logs it as non-fatal; each other phase lets
its `RuntimeError` escape to the `except` block of `main`. -/
def phaseFatal (i : ℕ) : Bool := i ≠ 1

/-- Run the listed phases in order.  `outcome i = true` means phase `i`'s
underlying checks succeed.  Returns the phases that started executing, in
execution order, paired with `some i` when the gate aborted because fatal
phase `i` failed (`none` when it ran to completion). -/
def runPhases (outcome : ℕ → Bool) : List ℕ → List ℕ × Option ℕ
  | [] => ([], none)
  | i :: rest =>
    if !outcome i && phaseFatal i then ([i], some i)
    else
      match runPhases outcome rest with
      | (ex, f) => (i :: ex, f)

/-- The five phases of `main()` in their source order. -/
def runGate (outcome : ℕ → Bool) : List ℕ × Option ℕ :=
  runPhases outcome [0, 1, 2, 3, 4]

/-- The process exit code of `main()`: 0 when no fatal phase failed, 1 when
the `except` block caught a phase failure. -/
def gateExit (outcome : ℕ → Bool) : ℕ :=
  if (runGate outcome).2 = none then 0 else 1

/-! ## `scripts/monitor_resources.py`: `compute_statistics` -/

/-- One resource sample as `collect_metrics` builds it: each metric key is
present only when its Prometheus query returned data; `timestamp` is always
set. -/
structure Sample where
  cpu_cores : Option ℚ := none
  memory_mb : Option ℚ := none
  network_rx_mbps : Option ℚ := none
  network_tx_mbps : Option ℚ := none
  running_pods : Option ℚ := none
  timestamp : ℚ := 0
deriving DecidableEq

/-- The `avg`/`min`/`max` record `compute_statistics` builds per field. -/
structure FieldStat where
  avg : ℚ
  min : ℚ
  max : ℚ
deriving DecidableEq

/-- The loop body of `compute_statistics` for one tracked key:
`values = [s[key] for s in samples if key in s]`, aggregated only when
non-empty. -/
def statsFor (values : List ℚ) : Option FieldStat :=
  if values = [] then none
  else some
    { avg := pyRound (values.sum / (values.length : ℚ)) 3
      min := pyRound (listMin values) 3
      max := pyRound (listMax values) 3 }

/-- The output dict of `compute_statistics`. -/
structure ResourceStats where
  cpu_cores : Option FieldStat
  memory_mb : Option FieldStat
  network_rx_mbps : Option FieldStat
  network_tx_mbps : Option FieldStat
  running_pods : Option ℚ

/-- `compute_statistics(samples)` from `scripts/monitor_resources.py`:
empty input yields the empty dict; otherwise each of the four tracked
resource keys is included iff some sample carries it, while the pod count
averages `s.get("running_pods", 0)` over all samples — absent values are
defaulted to 0, and the entry is included whenever any sample exists. -/
def compute_statistics (samples : List Sample) : ResourceStats :=
  if samples = [] then
    { cpu_cores := none, memory_mb := none, network_rx_mbps := none,
      network_tx_mbps := none, running_pods := none }
  else
    { cpu_cores := statsFor (samples.filterMap Sample.cpu_cores)
      memory_mb := statsFor (samples.filterMap Sample.memory_mb)
      network_rx_mbps := statsFor (samples.filterMap Sample.network_rx_mbps)
      network_tx_mbps := statsFor (samples.filterMap Sample.network_tx_mbps)
      running_pods :=
        let pod_counts := samples.map (fun s => s.running_pods.getD 0)
        if pod_counts = [] then none
        else some (pyRound (pod_counts.sum / (pod_counts.length : ℚ)) 1) }

/-! ## `scripts/monitor_resources.py`: the sampling loop -/

/-- The sampling loop of `monitor_resources(url, duration, interval)` in
idealised time: `end_time = now + duration`; while the clock is before
`end_time`, take a sample (every sample carries at least `timestamp`, so it
is always truthy and appended) and sleep `interval` seconds.  Sampling
itself is assumed instantaneous, so the clock visits
t = 0, interval, 2*interval, ….  The first argument is fuel bounding the
iteration count; `duration` iterations suffice whenever `interval ≥ 1`. -/
def monitorGo : ℕ → ℕ → ℕ → ℕ → List ℕ
  | 0, _, _, _ => []
  | fuel + 1, duration, interval, t =>
    if t < duration then t :: monitorGo fuel duration interval (t + interval)
    else []

/-- The instants (seconds after the monitor started) at which
`monitor_resources` takes its samples. -/
def monitorTimes (duration interval : ℕ) : List ℕ :=
  monitorGo duration duration interval 0

/-! ## Helper lemmas about `pyInt` and sorted lists -/

theorem pyInt_eq_floor {q : ℚ} (h : 0 ≤ q) : pyInt q = ⌊q⌋ := by
  rw [pyInt, if_neg (not_lt.2 h)]

theorem getD_zero_mem {l : List ℚ} (hl : l ≠ []) : l.getD 0 0 ∈ l := by
  cases l with
  | nil => exact absurd rfl hl
  | cons a t => simp

theorem getD_last_mem {l : List ℚ} (hl : l ≠ []) : l.getD (l.length - 1) 0 ∈ l := by
  induction l with
  | nil => exact absurd rfl hl
  | cons a t ih =>
    cases t with
    | nil => simp
    | cons b u =>
      have h1 : (a :: b :: u).length - 1 = (b :: u).length - 1 + 1 := by
        simp [List.length_cons]
      rw [h1, List.getD_cons_succ]
      exact List.mem_cons_of_mem a (ih (by simp))

theorem sorted_getD_zero_le {l : List ℚ} (hs : l.Sorted (· ≤ ·)) {x : ℚ}
    (hx : x ∈ l) : l.getD 0 0 ≤ x := by
  cases l with
  | nil => exact absurd hx (List.not_mem_nil x)
  | cons a t =>
    rw [List.getD_cons_zero]
    rcases List.mem_cons.1 hx with h | h
    · exact h ▸ le_refl a
    · exact List.rel_of_sorted_cons hs x h

theorem sorted_le_getD_last {l : List ℚ} (hs : l.Sorted (· ≤ ·)) {x : ℚ}
    (hx : x ∈ l) : x ≤ l.getD (l.length - 1) 0 := by
  induction l with
  | nil => exact absurd hx (List.not_mem_nil x)
  | cons a t ih =>
    cases t with
    | nil =>
      rcases List.mem_cons.1 hx with h | h
      · simp [h]
      · exact absurd h (List.not_mem_nil x)
    | cons b u =>
      have h1 : (a :: b :: u).length - 1 = (b :: u).length - 1 + 1 := by
        simp [List.length_cons]
      rw [h1, List.getD_cons_succ]
      rcases List.mem_cons.1 hx with h | h
      · subst h
        exact le_trans
          (List.rel_of_sorted_cons hs _ (getD_last_mem (by simp)))
          (le_refl _)
      · exact ih hs.of_cons h

/-! ## Closed forms of `percentile` at the endpoints -/

theorem percentile_eval_zero (s : List ℚ) (hs : s ≠ []) :
    percentile s 0 = (List.insertionSort (fun a b => a ≤ b) s).getD 0 0 := by
  have hlen : (List.insertionSort (fun a b => a ≤ b) s).length = s.length :=
    List.length_insertionSort _ _
  obtain ⟨n, hn⟩ : ∃ n, s.length = n + 1 :=
    Nat.exists_eq_add_of_le (List.length_pos.2 hs)
      |>.imp fun n h => by omega
  simp only [percentile, if_neg hs, hlen, hn, mul_zero]
  have hfl : pyInt 0 = 0 := by rw [pyInt_eq_floor le_rfl, Int.floor_zero]
  rw [hfl]
  cases n with
  | zero => norm_num
  | succ m =>
    have hmin : min ((0:ℤ) + 1) ((((m + 1 + 1 : ℕ)) : ℤ) - 1) = 1 := by
      push_cast
      omega
    rw [hmin]
    norm_num

theorem percentile_eval_one (s : List ℚ) (hs : s ≠ []) :
    percentile s 1 =
      (List.insertionSort (fun a b => a ≤ b) s).getD (s.length - 1) 0 := by
  have hlen : (List.insertionSort (fun a b => a ≤ b) s).length = s.length :=
    List.length_insertionSort _ _
  obtain ⟨n, hn⟩ : ∃ n, s.length = n + 1 :=
    Nat.exists_eq_add_of_le (List.length_pos.2 hs)
      |>.imp fun n h => by omega
  simp only [percentile, if_neg hs, hlen, hn, mul_one]
  have hfl : pyInt (((n + 1 : ℕ) : ℚ) - 1) = n := by
    rw [pyInt_eq_floor (by push_cast; linarith [show (0:ℚ) ≤ (n:ℚ) from Nat.cast_nonneg n])]
    have : (((n + 1 : ℕ) : ℚ) - 1) = ((n : ℤ) : ℚ) := by push_cast; ring
    rw [this, Int.floor_intCast]
  rw [hfl]
  have hmin : min ((n : ℤ) + 1) ((((n + 1 : ℕ)) : ℤ) - 1) = n := by push_cast; omega
  rw [hmin, if_pos rfl]
  norm_num

/-! ## Claim theorems: C1 and C10 -/

/-- C1: for every list of non-negative latencies and every `p ∈ [0,1]`,
`percentile` computes exactly the linearly-interpolated order statistic the
spec describes (`percentileSpec`); moreover `percentile [] p = 0` and
`percentile [x] p = x`. -/
theorem percentile_matches_spec (samples : List ℚ) (p : ℚ)
    (hnn : ∀ x ∈ samples, 0 ≤ x) (hp0 : 0 ≤ p) (hp1 : p ≤ 1) :
    percentile samples p = percentileSpec samples p ∧
    percentile [] p = 0 ∧ ∀ x : ℚ, percentile [x] p = x := by
  refine ⟨?_, by rw [percentile, if_pos rfl], ?_⟩
  · by_cases hsam : samples = []
    · rw [hsam, percentile, percentileSpec, if_pos rfl, if_pos rfl]
    · have hlen : (List.insertionSort (fun a b => a ≤ b) samples).length
          = samples.length := List.length_insertionSort _ _
      have hpos : 1 ≤ samples.length := List.length_pos.2 hsam
      have hk : 0 ≤ ((samples.length : ℚ) - 1) * p := by
        apply mul_nonneg _ hp0
        have : (1 : ℚ) ≤ (samples.length : ℚ) := by exact_mod_cast hpos
        linarith
      simp only [percentile, percentileSpec, if_neg hsam, hlen]
      rw [pyInt_eq_floor hk]
  · intro x
    have hfl : pyInt 0 = 0 := by rw [pyInt_eq_floor le_rfl, Int.floor_zero]
    simp only [percentile, List.insertionSort, List.orderedInsert,
      List.length_cons, List.length_nil]
    norm_num [hfl]

/-- Witness for C1 at `samples = [1, 2]`, `p = 1/2`. -/
theorem percentile_matches_spec_witness :
    percentile [1, 2] (1/2) = percentileSpec [1, 2] (1/2) ∧
    percentile [] (1/2) = 0 ∧ ∀ x : ℚ, percentile [x] (1/2) = x := by
  exact percentile_matches_spec [1, 2] (1/2)
    (by intro x hx; fin_cases hx <;> norm_num)
    (by norm_num) (by norm_num)

/-- C10: for every non-empty latency list `s`, `percentile s 0` is the
minimum element of `s` and `percentile s 1` is the maximum element of `s`. -/
theorem percentile_endpoints_min_max (s : List ℚ) (hs : s ≠ []) :
    (percentile s 0 ∈ s ∧ ∀ x ∈ s, percentile s 0 ≤ x) ∧
    (percentile s 1 ∈ s ∧ ∀ x ∈ s, x ≤ percentile s 1) := by
  have hlen : (List.insertionSort (fun a b => a ≤ b) s).length = s.length :=
    List.length_insertionSort _ _
  have hne : List.insertionSort (fun a b => a ≤ b) s ≠ [] := by
    intro h
    exact hs (List.eq_nil_of_length_eq_zero (by rw [← hlen, h, List.length_nil]))
  have hsorted : (List.insertionSort (fun a b => a ≤ b) s).Sorted (· ≤ ·) :=
    List.sorted_insertionSort _ s
  constructor
  · rw [percentile_eval_zero s hs]
    constructor
    · exact (List.mem_insertionSort _).1 (getD_zero_mem hne)
    · intro x hx
      exact sorted_getD_zero_le hsorted ((List.mem_insertionSort _).2 hx)
  · rw [percentile_eval_one s hs]
    constructor
    · rw [← hlen]
      exact (List.mem_insertionSort _).1 (getD_last_mem hne)
    · intro x hx
      rw [← hlen]
      exact sorted_le_getD_last hsorted ((List.mem_insertionSort _).2 hx)

/-! ## Dict lookup lemmas -/

theorem lookup_dictSet_self {α : Type} (d : List (String × α)) (k : String)
    (v : α) : (dictSet d k v).lookup k = some v := by
  induction d with
  | nil => simp [dictSet, List.lookup]
  | cons kv rest ih =>
    obtain ⟨k0, v0⟩ := kv
    by_cases h : k0 = k
    · simp [dictSet, h, List.lookup]
    · simp only [dictSet, if_neg h, List.lookup]
      rw [show (k == k0) = false from beq_eq_false_iff_ne.2 (Ne.symm h)]
      exact ih

theorem lookup_dictSet_ne {α : Type} (d : List (String × α)) (k k' : String)
    (v : α) (h : k' ≠ k) : (dictSet d k v).lookup k' = d.lookup k' := by
  induction d with
  | nil => simp [dictSet, List.lookup, beq_eq_false_iff_ne.2 h]
  | cons kv rest ih =>
    obtain ⟨k0, v0⟩ := kv
    by_cases hk : k0 = k
    · subst hk
      simp [dictSet, List.lookup, beq_eq_false_iff_ne.2 h]
    · simp only [dictSet, if_neg hk, List.lookup]
      by_cases hk' : k' = k0
      · rw [show (k' == k0) = true from beq_iff_eq.2 hk']
      · rw [show (k' == k0) = false from beq_eq_false_iff_ne.2 hk']
        exact ih

theorem lookup_dictUpdate_not_mem {α : Type} (u d : List (String × α))
    (k : String) (h : k ∉ u.map Prod.fst) :
    (dictUpdate d u).lookup k = d.lookup k := by
  induction u generalizing d with
  | nil => rfl
  | cons kv rest ih =>
    obtain ⟨k0, v0⟩ := kv
    have hne : k ≠ k0 := by
      intro hk
      exact h (by simp [hk])
    have hrest : k ∉ rest.map Prod.fst := by
      intro hk
      exact h (by simp [hk])
    show (dictUpdate (dictSet d k0 v0) rest).lookup k = d.lookup k
    rw [ih (dictSet d k0 v0) hrest, lookup_dictSet_ne d k0 k v0 hne]

theorem lookup_dictUpdate_mem {α : Type} (u d : List (String × α))
    (k : String) (v : α) (hnd : (u.map Prod.fst).Nodup) (h : (k, v) ∈ u) :
    (dictUpdate d u).lookup k = some v := by
  induction u generalizing d with
  | nil => exact absurd h (List.not_mem_nil _)
  | cons kv rest ih =>
    obtain ⟨k0, v0⟩ := kv
    have hnd' : (rest.map Prod.fst).Nodup := by
      rw [List.map_cons] at hnd
      exact hnd.of_cons
    rcases List.mem_cons.1 h with hh | hh
    · obtain ⟨rfl, rfl⟩ : k = k0 ∧ v = v0 :=
        ⟨congrArg Prod.fst hh, congrArg Prod.snd hh⟩
      have hnm : k ∉ rest.map Prod.fst := by
        rw [List.map_cons] at hnd
        exact (List.nodup_cons.1 hnd).1
      show (dictUpdate (dictSet d k v) rest).lookup k = some v
      rw [lookup_dictUpdate_not_mem rest _ k hnm, lookup_dictSet_self]
    · show (dictUpdate (dictSet d k0 v0) rest).lookup k = some v
      exact ih (dictSet d k0 v0) hnd' hh

/-- Witness for C10 at `s = [2, 1, 3]`. -/
theorem percentile_endpoints_min_max_witness :
    (percentile [2, 1, 3] 0 ∈ [(2:ℚ), 1, 3] ∧
      ∀ x ∈ [(2:ℚ), 1, 3], percentile [2, 1, 3] 0 ≤ x) ∧
    (percentile [2, 1, 3] 1 ∈ [(2:ℚ), 1, 3] ∧
      ∀ x ∈ [(2:ℚ), 1, 3], x ≤ percentile [2, 1, 3] 1) :=
  percentile_endpoints_min_max [2, 1, 3] (by simp)

/-! ## Claim theorems: C2, C8, C5 -/

/-- C2: `compute_metrics` with zero attempts yields `success_rate`, `rps`,
and every latency field (`avg`, `p50`, `p90`, `p95`, `p99`, `max`) equal to
0; with `attempts = n > 0` and `successes = k` it yields
`success_rate = k / n` exactly, and `rps = n / duration` when
`duration ≠ 0`, and `rps = 0` when `duration = 0`. -/
theorem compute_metrics_rates (latencies : List ℚ) (k n : ℕ) (duration : ℚ)
    (failures : ℕ) (hn : n ≠ 0) :
    ((compute_metrics latencies k 0 duration failures).lookup "rps" = some 0 ∧
     (compute_metrics latencies k 0 duration failures).lookup "success_rate" = some 0 ∧
     (compute_metrics latencies k 0 duration failures).lookup "avg" = some 0 ∧
     (compute_metrics latencies k 0 duration failures).lookup "p50" = some 0 ∧
     (compute_metrics latencies k 0 duration failures).lookup "p90" = some 0 ∧
     (compute_metrics latencies k 0 duration failures).lookup "p95" = some 0 ∧
     (compute_metrics latencies k 0 duration failures).lookup "p99" = some 0 ∧
     (compute_metrics latencies k 0 duration failures).lookup "max" = some 0) ∧
    ((compute_metrics latencies k n duration failures).lookup "success_rate"
      = some ((k : ℚ) / (n : ℚ))) ∧
    (duration ≠ 0 →
      (compute_metrics latencies k n duration failures).lookup "rps"
        = some ((n : ℚ) / duration)) ∧
    (duration = 0 →
      (compute_metrics latencies k n duration failures).lookup "rps" = some 0) := by
  refine ⟨⟨rfl, rfl, rfl, rfl, rfl, rfl, rfl, rfl⟩, ?_, ?_, ?_⟩
  · simp [compute_metrics, if_neg hn, List.lookup_cons]
  · intro hd
    simp [compute_metrics, if_neg hn, List.lookup_cons, hd]
  · intro hd
    simp [compute_metrics, if_neg hn, List.lookup_cons, hd]

/-- Witness for C2 at `latencies = [1]`, `k = 1`, `n = 2`,
`duration = 2`, `failures = 1`. -/
theorem compute_metrics_rates_witness :
    ((compute_metrics [1] 1 0 2 1).lookup "rps" = some 0 ∧
     (compute_metrics [1] 1 0 2 1).lookup "success_rate" = some 0 ∧
     (compute_metrics [1] 1 0 2 1).lookup "avg" = some 0 ∧
     (compute_metrics [1] 1 0 2 1).lookup "p50" = some 0 ∧
     (compute_metrics [1] 1 0 2 1).lookup "p90" = some 0 ∧
     (compute_metrics [1] 1 0 2 1).lookup "p95" = some 0 ∧
     (compute_metrics [1] 1 0 2 1).lookup "p99" = some 0 ∧
     (compute_metrics [1] 1 0 2 1).lookup "max" = some 0) ∧
    ((compute_metrics [1] 1 2 2 1).lookup "success_rate"
      = some ((1 : ℚ) / (2 : ℚ))) ∧
    ((2 : ℚ) ≠ 0 →
      (compute_metrics [1] 1 2 2 1).lookup "rps" = some ((2 : ℚ) / (2 : ℚ))) ∧
    ((2 : ℚ) = 0 →
      (compute_metrics [1] 1 2 2 1).lookup "rps" = some 0) := by
  have h := compute_metrics_rates [1] 1 2 2 1 (by norm_num)
  exact ⟨h.1, by exact_mod_cast h.2.1, fun hd => by exact_mod_cast h.2.2.1 hd,
    fun hd => h.2.2.2 hd⟩

/-- C8: the persisted pipeline state round-trips non-destructively: loading
after `update_state updates` yields the prior map with `updates` merged in,
where keys not touched by `updates` keep their prior binding; loading when
the state file is absent yields the empty map. -/
theorem update_state_non_destructive {α : Type}
    (file : Option (List (String × α))) (updates : List (String × α)) :
    load_state (none : Option (List (String × α))) = [] ∧
    (∀ k, k ∉ updates.map Prod.fst →
      (load_state (update_state file updates)).lookup k
        = (load_state file).lookup k) ∧
    (∀ k v, (updates.map Prod.fst).Nodup → (k, v) ∈ updates →
      (load_state (update_state file updates)).lookup k = some v) := by
  refine ⟨rfl, ?_, ?_⟩
  · intro key hk
    show (dictUpdate (load_state file) updates).lookup key
      = (load_state file).lookup key
    exact lookup_dictUpdate_not_mem updates (load_state file) key hk
  · intro key v hnd hv
    show (dictUpdate (load_state file) updates).lookup key = some v
    exact lookup_dictUpdate_mem updates (load_state file) key v hnd hv

/-- Witness for C8: the spec's own example, writing the map with key `a`
bound to 1 then updating with `b` bound to 2. -/
theorem update_state_non_destructive_witness :
    (load_state (update_state (some [("a", (1:ℤ))]) [("b", 2)])).lookup "a"
      = some 1 ∧
    (load_state (update_state (some [("a", (1:ℤ))]) [("b", 2)])).lookup "b"
      = some 2 := by
  obtain ⟨-, h1, h2⟩ :=
    update_state_non_destructive (some [("a", (1:ℤ))]) [("b", 2)]
  exact ⟨(h1 "a" (by decide)).trans rfl, h2 "b" 2 (by decide) (by decide)⟩

/-- C5 is refuted by the code (code bug): `summarise` applied to a per-host
results mapping produced by `compute_metrics` in which `foo.localhost` has a
zero-attempt group raises `KeyError` (modelled as `none`), because the
zero-attempt branch of `compute_metrics` omits the `"requests"` and
`"failures"` keys that `summarise` reads unconditionally — the report is not
renderable there, contradicting the claim. -/
theorem summarise_zero_attempt_host_raises :
    summarise resultsZeroAttempt = none := rfl

/-! ## `run_load` fold invariants -/

theorem fin_two_eq_zero_or_one : ∀ i : Fin 2, i = 0 ∨ i = 1 := by decide

theorem foldl_step_attempts (events : List Event) (init : Fin 2 → HostStats)
    (h : Fin 2) :
    ((events.foldl step init) h).attempts
      = (init h).attempts + countHost events h := by
  induction events generalizing init with
  | nil => simp [countHost]
  | cons e rest ih =>
    obtain ⟨ehost, eres⟩ := e
    rw [List.foldl_cons, ih (step init ⟨ehost, eres⟩)]
    by_cases hh : h = ehost
    · subst hh
      cases eres <;> simp [step, countHost, List.filter_cons] <;> omega
    · have hb : (ehost == h) = false := beq_eq_false_iff_ne.2 (Ne.symm hh)
      simp [step, hh, countHost, List.filter_cons, hb]

theorem foldl_step_latencies (events : List Event) (init : Fin 2 → HostStats)
    (h : Fin 2) :
    ((events.foldl step init) h).latencies.length
      = (init h).latencies.length + countHost events h := by
  induction events generalizing init with
  | nil => simp [countHost]
  | cons e rest ih =>
    obtain ⟨ehost, eres⟩ := e
    rw [List.foldl_cons, ih (step init ⟨ehost, eres⟩)]
    by_cases hh : h = ehost
    · subst hh
      cases eres <;> simp [step, countHost, List.filter_cons] <;> omega
    · have hb : (ehost == h) = false := beq_eq_false_iff_ne.2 (Ne.symm hh)
      simp [step, hh, countHost, List.filter_cons, hb]

theorem foldl_step_successes (events : List Event) (init : Fin 2 → HostStats)
    (h : Fin 2) :
    ((events.foldl step init) h).successes
      = (init h).successes + countSuccess events h := by
  induction events generalizing init with
  | nil => simp [countSuccess]
  | cons e rest ih =>
    obtain ⟨ehost, eres⟩ := e
    rw [List.foldl_cons, ih (step init ⟨ehost, eres⟩)]
    by_cases hh : h = ehost
    · subst hh
      cases eres with
      | ok status body lat =>
        by_cases hs : (status == 200 && isSubstr (expectedOf h) body) = true <;>
          simp [step, countSuccess, List.filter_cons, isSuccess, hs] <;> omega
      | exn lat =>
        simp [step, countSuccess, List.filter_cons, isSuccess]
    · have hb : (ehost == h) = false := beq_eq_false_iff_ne.2 (Ne.symm hh)
      simp [step, hh, countSuccess, List.filter_cons, hb]

theorem foldl_step_succ_fail (events : List Event) (init : Fin 2 → HostStats)
    (h : Fin 2) :
    ((events.foldl step init) h).successes + ((events.foldl step init) h).failures
      = (init h).successes + (init h).failures + countHost events h := by
  induction events generalizing init with
  | nil => simp [countHost]
  | cons e rest ih =>
    obtain ⟨ehost, eres⟩ := e
    rw [List.foldl_cons, ih (step init ⟨ehost, eres⟩)]
    by_cases hh : h = ehost
    · subst hh
      cases eres with
      | ok status body lat =>
        by_cases hs : (status == 200 && isSubstr (expectedOf h) body) = true <;>
          simp [step, countHost, List.filter_cons, hs] <;> omega
      | exn lat =>
        simp [step, countHost, List.filter_cons]
        omega
    · have hb : (ehost == h) = false := beq_eq_false_iff_ne.2 (Ne.symm hh)
      simp [step, hh, countHost, List.filter_cons, hb]

theorem countHost_sum (events : List Event) :
    countHost events 0 + countHost events 1 = events.length := by
  induction events with
  | nil => rfl
  | cons e rest ih =>
    rcases fin_two_eq_zero_or_one e.host with h0 | h1
    · have hb0 : (e.host == (0 : Fin 2)) = true := beq_iff_eq.2 h0
      have hb1 : (e.host == (1 : Fin 2)) = false :=
        beq_eq_false_iff_ne.2 (by rw [h0]; decide)
      simp [countHost, List.filter_cons, hb0, hb1] at *
      omega
    · have hb0 : (e.host == (0 : Fin 2)) = false :=
        beq_eq_false_iff_ne.2 (by rw [h1]; decide)
      have hb1 : (e.host == (1 : Fin 2)) = true := beq_iff_eq.2 h1
      simp [countHost, List.filter_cons, hb0, hb1] at *
      omega

/-! ## Claim theorem: C4 -/

/-- C4: in every steady-state run the per-host attempt counts sum to the
request budget (the number of loop iterations); every host's latency count
equals its attempt count; its successes plus failures equal its attempt
count; each outcome is attributed to the host chosen for that request; and
a request is counted a success iff it returned HTTP 200 with the expected
substring in the body.  The loop is total in the events — failures are
recorded, never aborting. -/
theorem run_load_invariants (events : List Event) :
    ((run_load events 0).attempts + (run_load events 1).attempts
      = events.length) ∧
    (∀ h, (run_load events h).attempts = countHost events h) ∧
    (∀ h, (run_load events h).latencies.length
      = (run_load events h).attempts) ∧
    (∀ h, (run_load events h).successes + (run_load events h).failures
      = (run_load events h).attempts) ∧
    (∀ h, (run_load events h).successes = countSuccess events h) := by
  have hatt : ∀ h, (run_load events h).attempts = countHost events h := by
    intro h
    rw [run_load, foldl_step_attempts events initStats h]
    simp [initStats]
  have hlat : ∀ h, (run_load events h).latencies.length = countHost events h := by
    intro h
    rw [run_load, foldl_step_latencies events initStats h]
    simp [initStats]
  have hsf : ∀ h, (run_load events h).successes + (run_load events h).failures
      = countHost events h := by
    intro h
    rw [run_load, foldl_step_succ_fail events initStats h]
    simp [initStats]
  have hsucc : ∀ h, (run_load events h).successes = countSuccess events h := by
    intro h
    rw [run_load, foldl_step_successes events initStats h]
    simp [initStats]
  refine ⟨by rw [hatt 0, hatt 1]; exact countHost_sum events, hatt, ?_, ?_, hsucc⟩
  · intro h
    rw [hlat h, hatt h]
  · intro h
    rw [hsf h, hatt h]

/-! ## `warmup` lemmas -/

theorem warmupFrom_none_iff (responses : ℕ → Option ℕ)
    (start remaining : ℕ) :
    warmupFrom responses start remaining = none ↔
      ∀ i, start ≤ i → i < start + remaining → responses i ≠ some 200 := by
  induction remaining generalizing start with
  | zero =>
    constructor
    · intro _ i h1 h2
      omega
    · intro _
      rfl
  | succ m ih =>
    simp only [warmupFrom]
    by_cases hs : responses start = some 200
    · rw [if_pos hs]
      constructor
      · intro h
        exact absurd h (by simp)
      · intro h
        exact absurd hs (h start le_rfl (by omega))
    · rw [if_neg hs]
      rw [ih (start + 1)]
      constructor
      · intro h i h1 h2
        rcases eq_or_lt_of_le h1 with rfl | hlt
        · exact hs
        · exact h i hlt (by omega)
      · intro h i h1 h2
        exact h i (by omega) (by omega)

theorem warmupFrom_some (responses : ℕ → Option ℕ)
    (start remaining j : ℕ)
    (h : warmupFrom responses start remaining = some j) :
    responses j = some 200 ∧ start ≤ j ∧ j < start + remaining ∧
      ∀ i, start ≤ i → i < j → responses i ≠ some 200 := by
  induction remaining generalizing start with
  | zero => exact absurd h (by simp [warmupFrom])
  | succ m ih =>
    rw [warmupFrom] at h
    by_cases hs : responses start = some 200
    · rw [if_pos hs] at h
      obtain rfl : start = j := Option.some.injEq .. ▸ h
      exact ⟨hs, le_rfl, by omega, fun i h1 h2 => absurd (le_trans h1 (le_of_lt h2)) (by omega)⟩
    · rw [if_neg hs] at h
      obtain ⟨hj, h1, h2, h3⟩ := ih (start + 1) h
      refine ⟨hj, by omega, by omega, ?_⟩
      intro i hi1 hi2
      rcases eq_or_lt_of_le hi1 with rfl | hlt
      · exact hs
      · exact h3 i hlt hi2

/-! ## Claim theorem: C7 -/

/-- C7: `warmup` raises iff none of the `w` allowed attempts returns
HTTP 200; when it returns it returns at the first attempt that returned
HTTP 200; and if any host's warmup fails, `main` aborts with zero
steady-state requests issued. -/
theorem warmup_gates_run (w : ℕ) (resp : Fin 2 → ℕ → Option ℕ)
    (events : List Event) :
    (∀ h : Fin 2, warmup w (resp h) = none ↔
      ∀ i, 1 ≤ i → i ≤ w → resp h i ≠ some 200) ∧
    (∀ (h : Fin 2) (j : ℕ), warmup w (resp h) = some j →
      resp h j = some 200 ∧ 1 ≤ j ∧ j ≤ w ∧
        ∀ i, 1 ≤ i → i < j → resp h i ≠ some 200) ∧
    ((∃ h : Fin 2, warmup w (resp h) = none) →
      mainModel w resp events = (none, [])) := by
  refine ⟨?_, ?_, ?_⟩
  · intro h
    rw [warmup, warmupFrom_none_iff]
    constructor
    · intro hf i h1 h2
      exact hf i h1 (by omega)
    · intro hf i h1 h2
      exact hf i h1 (by omega)
  · intro h j hj
    obtain ⟨h200, h1, h2, h3⟩ := warmupFrom_some (resp h) 1 w j hj
    exact ⟨h200, h1, by omega, h3⟩
  · rintro ⟨h, hh⟩
    rw [mainModel]
    rcases fin_two_eq_zero_or_one h with rfl | rfl
    · rw [hh]
    · cases h0 : warmup w (resp 0) with
      | none => rfl
      | some a => rw [hh]

/-- Witness for C7: with a network that never answers, the warmup of host 0
fails and `main` issues no steady-state request. -/
theorem warmup_gates_run_witness :
    mainModel 2 (fun _ _ => none) [] = (none, []) :=
  (warmup_gates_run 2 (fun _ _ => none) []).2.2 ⟨0, rfl⟩

/-! ## Claim theorems: C3 -/

/-- C3 is refuted at this input: when the checks of phase 2 (of 5) fail and
every other phase's checks succeed, phases 3-5 still execute and the gate
exits 0 — in the code phase 2 (admission webhooks) is advisory, not
fatal. -/
theorem gate_phase2_failure_not_fatal :
    (runGate fun i => decide (i ≠ 1)).1 = [0, 1, 2, 3, 4] ∧
    (runGate fun i => decide (i ≠ 1)).2 = none ∧
    gateExit (fun i => decide (i ≠ 1)) = 0 :=
  ⟨rfl, rfl, rfl⟩

/-- C3 (amended): the gate runs its phases strictly in order, and when a
fatal phase fails — every earlier fatal phase having succeeded — the gate
stops right after it: later phases never execute, the reported failing
phase is that phase, and `main` exits 1.  Phase 2 (admission webhooks) is
the exception: it is advisory, so its failure does not stop phases 3-5. -/
theorem gate_fatal_phase_aborts (outcome : ℕ → Bool) (i : ℕ) (hi : i < 5)
    (hfatal : phaseFatal i = true) (hfail : outcome i = false)
    (hearlier : ∀ j, j < i → phaseFatal j = true → outcome j = true) :
    (runGate outcome).1 = List.range (i + 1) ∧
    (runGate outcome).2 = some i ∧
    gateExit outcome = 1 ∧
    ∀ j, i < j → j ∉ (runGate outcome).1 := by
  have hne1 : i ≠ 1 := of_decide_eq_true hfatal
  interval_cases i
  · refine ⟨?_, ?_, ?_, ?_⟩ <;>
      simp [runGate, runPhases, gateExit, phaseFatal, hfail, List.range_succ] <;>
      omega
  · exact absurd rfl hne1
  · have h0 : outcome 0 = true := hearlier 0 (by norm_num) rfl
    refine ⟨?_, ?_, ?_, ?_⟩ <;>
      simp [runGate, runPhases, gateExit, phaseFatal, hfail, h0,
        List.range_succ] <;> omega
  · have h0 : outcome 0 = true := hearlier 0 (by norm_num) rfl
    have h2 : outcome 2 = true := hearlier 2 (by norm_num) rfl
    refine ⟨?_, ?_, ?_, ?_⟩ <;>
      simp [runGate, runPhases, gateExit, phaseFatal, hfail, h0, h2,
        List.range_succ] <;> omega
  · have h0 : outcome 0 = true := hearlier 0 (by norm_num) rfl
    have h2 : outcome 2 = true := hearlier 2 (by norm_num) rfl
    have h3 : outcome 3 = true := hearlier 3 (by norm_num) rfl
    refine ⟨?_, ?_, ?_, ?_⟩ <;>
      simp [runGate, runPhases, gateExit, phaseFatal, hfail, h0, h2, h3,
        List.range_succ] <;> omega

/-- Witness for the amended C3: phase 3 (ingress controller, fatal) failing
stops the gate after phases 1-3; phases 4 and 5 never run. -/
theorem gate_fatal_phase_aborts_witness :
    (runGate fun i => decide (i ≠ 2)).1 = List.range 3 ∧
    (runGate fun i => decide (i ≠ 2)).2 = some 2 ∧
    gateExit (fun i => decide (i ≠ 2)) = 1 ∧
    ∀ j, 2 < j → j ∉ (runGate fun i => decide (i ≠ 2)).1 :=
  gate_fatal_phase_aborts (fun i => decide (i ≠ 2)) 2 (by norm_num) rfl rfl
    (by intro j hj _; interval_cases j <;> rfl)

/-! ## Claim theorems: C6 -/

/-- C6 is refuted at this input: a single sample that carries no
`running_pods` field still produces a `running_pods` statistics entry
(averaging the phantom default 0). -/
theorem compute_statistics_phantom_pods :
    (Sample.mk none none none none none 5).running_pods = none ∧
    (compute_statistics [Sample.mk none none none none none 5]).running_pods
      = some 0 := by
  refine ⟨rfl, ?_⟩
  norm_num [compute_statistics, pyRound, roundHalfEven]

theorem statsFor_eq_none_iff (values : List ℚ) :
    statsFor values = none ↔ values = [] := by
  by_cases h : values = [] <;> simp [statsFor, h]

/-- C6 (amended): for each of the four tracked resource fields
(`cpu_cores`, `memory_mb`, `network_rx_mbps`, `network_tx_mbps`),
`compute_statistics` includes a statistics entry iff at least one sample
carried that field, and its avg/min/max aggregate exactly the present
values (`samples.filterMap`); the `running_pods` entry, however, is
included whenever the sample list is non-empty, with absent values
defaulted to 0. -/
theorem compute_statistics_present_fields (samples : List Sample) :
    ((compute_statistics samples).cpu_cores
        = statsFor (samples.filterMap Sample.cpu_cores) ∧
      ((compute_statistics samples).cpu_cores = none ↔
        ∀ s ∈ samples, s.cpu_cores = none)) ∧
    ((compute_statistics samples).memory_mb
        = statsFor (samples.filterMap Sample.memory_mb) ∧
      ((compute_statistics samples).memory_mb = none ↔
        ∀ s ∈ samples, s.memory_mb = none)) ∧
    ((compute_statistics samples).network_rx_mbps
        = statsFor (samples.filterMap Sample.network_rx_mbps) ∧
      ((compute_statistics samples).network_rx_mbps = none ↔
        ∀ s ∈ samples, s.network_rx_mbps = none)) ∧
    ((compute_statistics samples).network_tx_mbps
        = statsFor (samples.filterMap Sample.network_tx_mbps) ∧
      ((compute_statistics samples).network_tx_mbps = none ↔
        ∀ s ∈ samples, s.network_tx_mbps = none)) ∧
    ((compute_statistics samples).running_pods = none ↔ samples = []) := by
  by_cases hsam : samples = []
  · subst hsam
    simp [compute_statistics, statsFor]
  · have hmap : samples.map (fun s => s.running_pods.getD 0) ≠ [] := by
      simp [List.map_eq_nil_iff, hsam]
    refine ⟨⟨?_, ?_⟩, ⟨?_, ?_⟩, ⟨?_, ?_⟩, ⟨?_, ?_⟩, ?_⟩ <;>
      simp [compute_statistics, if_neg hsam, statsFor_eq_none_iff,
        List.filterMap_eq_nil_iff, hmap, hsam]

/-! ## Claim theorems: C9 -/

theorem monitorGo_mem_iff (fuel duration interval t0 : ℕ) (hi : 0 < interval)
    (hfuel : duration ≤ t0 + fuel * interval) :
    ∀ t, t ∈ monitorGo fuel duration interval t0 ↔
      ∃ j, t = t0 + j * interval ∧ t < duration := by
  induction fuel generalizing t0 with
  | zero =>
    intro t
    rw [monitorGo]
    simp only [List.not_mem_nil, false_iff]
    rintro ⟨j, rfl, hd⟩
    have : t0 ≤ t0 + j * interval := Nat.le_add_right _ _
    omega
  | succ m ih =>
    intro t
    rw [monitorGo]
    by_cases hlt : t0 < duration
    · rw [if_pos hlt]
      have hfuel' : duration ≤ (t0 + interval) + m * interval := by
        have : t0 + (m + 1) * interval = t0 + interval + m * interval := by ring
        omega
      rw [List.mem_cons, ih (t0 + interval) hfuel' t]
      constructor
      · rintro (rfl | ⟨j, rfl, hd⟩)
        · exact ⟨0, by ring_nf, hlt⟩
        · exact ⟨j + 1, by ring_nf, hd⟩
      · rintro ⟨j, rfl, hd⟩
        cases j with
        | zero => exact Or.inl (by ring_nf)
        | succ k => exact Or.inr ⟨k, by ring_nf, hd⟩
    · rw [if_neg hlt]
      simp only [List.not_mem_nil, false_iff]
      rintro ⟨j, rfl, hd⟩
      have : t0 ≤ t0 + j * interval := Nat.le_add_right _ _
      omega

/-- C9: the resource monitor samples exactly at the interval boundaries
t = 0, interval, 2*interval, … that fall strictly before the duration
(assuming each sample takes negligible time); in particular with duration
30 s and interval 10 s it takes exactly the three samples t = 0, 10, 20 and
none at or after t = 30. -/
theorem monitor_boundary_semantics (duration interval : ℕ)
    (hi : 0 < interval) :
    (∀ t, t ∈ monitorTimes duration interval ↔
      ∃ j, t = j * interval ∧ t < duration) ∧
    monitorTimes 30 10 = [0, 10, 20] := by
  constructor
  · intro t
    have hfuel : duration ≤ 0 + duration * interval := by
      have h1 : duration * 1 ≤ duration * interval :=
        Nat.mul_le_mul_left duration hi
      omega
    have := monitorGo_mem_iff duration duration interval 0 hi hfuel t
    rw [monitorTimes, this]
    constructor
    · rintro ⟨j, rfl, hd⟩
      exact ⟨j, by omega, hd⟩
    · rintro ⟨j, rfl, hd⟩
      exact ⟨j, by omega, hd⟩
  · rfl

/-- Witness for C9 at duration 30, interval 10. -/
theorem monitor_boundary_semantics_witness :
    ((20 ∈ monitorTimes 30 10 ↔ ∃ j, 20 = j * 10 ∧ 20 < 30)) ∧
    monitorTimes 30 10 = [0, 10, 20] :=
  ⟨(monitor_boundary_semantics 30 10 (by norm_num)).1 20,
   (monitor_boundary_semantics 30 10 (by norm_num)).2⟩

end LoadTestCI
